import Mathlib

/-!
Shallow embedding of the confess-bot repository (siwan-cb/confess-bot).

The authoritative code for the confession game is the last variant in
src/stream.ts (the one defining parseConfession, hasActiveGame,
saveConfession with an incorrectGuesses field, and checkGuess over the
oldest incomplete record).  The /confess handler that consults
hasActiveGame before saving lives in src/unnamed/part_001.  The stream
retry loop (the outer while of listenForMessages) is textually identical in
every variant.

JS strings are modelled as `List Char`; `toLowerCase` is modelled by
`Char.toLower`, which agrees with JS on ASCII (the case the claims are
about).  The game file `game.json` is modelled by the in-memory list of
records it holds; a failed read/parse is modelled by `none` where the
code path matters (hasActiveGame, the /confess handler).  Timestamps
(`new Date().toISOString()`) are nondeterministic inputs and are passed
as parameters.
-/

namespace ConfessBot

/-- JS `s.toLowerCase()` (ASCII fragment). -/
def jsLower (s : List Char) : List Char := s.map Char.toLower

/-- Leading-whitespace removal, as in JS `trimStart`. -/
def jsTrimStart (s : List Char) : List Char := s.dropWhile Char.isWhitespace

/-- JS `s.trimEnd()`: remove trailing whitespace. -/
def jsTrimEnd (s : List Char) : List Char :=
  (s.reverse.dropWhile Char.isWhitespace).reverse

/-- JS `s.trim()`: remove leading and trailing whitespace. -/
def jsTrim (s : List Char) : List Char := jsTrimEnd (jsTrimStart s)

/-- JS string replace with a one-character plain-string pattern and an
empty replacement: removes the FIRST occurrence of `c` anywhere in `s`
(not only a leading one). -/
def removeFirst (c : Char) : List Char → List Char
  | [] => []
  | x :: xs => if x = c then xs else x :: removeFirst c xs

/-- JS `s.lastIndexOf(c)`, as an `Option Nat`: index of the last
occurrence of `c`, `none` when absent (JS returns -1). -/
def lastIndexOf (c : Char) : List Char → Option Nat
  | [] => none
  | x :: xs =>
    match lastIndexOf c xs with
    | some i => some (i + 1)
    | none => if x = c then some 0 else none

/-- One entry of the `questions` array of game.json, as written by
saveConfession of the confession-game variant (stream.ts): question, answer,
isComplete, incorrectGuesses, timestamp.  Records written by the older
variant omit incorrectGuesses; checkGuess reads them back through
`(q.incorrectGuesses || 0)`, i.e. as 0, so `Nat` with 0 is faithful. -/
structure ConfessionRecord where
  question : List Char
  answer : List Char
  isComplete : Bool
  incorrectGuesses : Nat
  timestamp : List Char
deriving DecidableEq

/-- Result object of checkGuess: `{ correct, confession?, error? }`. -/
structure GuessResult where
  correct : Bool
  confession : Option (List Char)
  error : Option (List Char)
deriving DecidableEq

/-- Error of checkGuess when no incomplete record exists (stream.ts). -/
def noGameFoundMsg : List Char := "No game found".toList

/-- Terminal error after the 5th incorrect guess (stream.ts). -/
def gameOverMsg : List Char :=
  "Game over! 5 incorrect guesses reached. The confessor remains anonymous. A new game can now begin!".toList

/-- Rejection sent by the part_001 /confess handler while a game is open. -/
def waitForGameMsg : List Char :=
  "There\x27s already an active confession game. Please wait until it\x27s completed before starting a new one.".toList

/-- Format-help reply when parseConfession returns null (same text in
part_001 and stream.ts). -/
def confessFormatMsg : List Char :=
  "Please provide your confession with your basename starting with @. Example: \x27/confess I like pancakes @yourname\x27".toList

/-- Reply when the confession was saved. -/
def confessSavedMsg : List Char :=
  "Confession saved successfully! Others will try to guess who made it.".toList

/-- Reply when saveConfession returned false (file read/write failed). -/
def saveFailedMsg : List Char :=
  "Confession was sent to the group but failed to save. Please try again.".toList

/-- Usage instructions sent by the stream.ts /confess handler on empty
remainder. -/
def confessUsageMsg : List Char :=
  "To make a confession, use the format:\n/confess [your confession] @[your name]\n\nExample:\n/confess I love pizza @alice".toList

/-- checkGuess from the confession-game variant of stream.ts.  The JS
code reads game.json, does `gameData.questions.find(q => !q.isComplete)`
(the OLDEST incomplete record), mutates only that record in place and
rewrites the file; we return the result object together with the
rewritten `questions` list.  Branches, in source order:
correct (`normalizedAnswer === normalizedGuess` with
`normalizedGuess` being the guess with its first at-sign replaced by the
empty string, then lowercased): set
isComplete, return `{correct: true, confession}`; wrong with
`incorrectGuesses + 1 >= 5`: set both fields, return
`{correct: false, error: gameOverMsg}`; wrong below the cap: increment,
return `{correct: false, confession}`; no incomplete record: return
`{correct: false, error: noGameFoundMsg}` without writing. -/
def checkGuess (guess : List Char) : List ConfessionRecord → GuessResult × List ConfessionRecord
  | [] => (⟨false, none, some noGameFoundMsg⟩, [])
  | q :: rest =>
    if q.isComplete then
      ((checkGuess guess rest).1, q :: (checkGuess guess rest).2)
    else if jsLower q.answer = jsLower (removeFirst '@' guess) then
      (⟨true, some q.question, none⟩, { q with isComplete := true } :: rest)
    else if q.incorrectGuesses + 1 ≥ 5 then
      (⟨false, none, some gameOverMsg⟩,
        { q with incorrectGuesses := q.incorrectGuesses + 1, isComplete := true } :: rest)
    else
      (⟨false, some q.question, none⟩,
        { q with incorrectGuesses := q.incorrectGuesses + 1 } :: rest)

/-- Iterate the store effect of checkGuess n times with the same guess. -/
def guessN (guess : List Char) : Nat → List ConfessionRecord → List ConfessionRecord
  | 0, qs => qs
  | n + 1, qs => guessN guess n (checkGuess guess qs).2

/-- saveConfession (stream.ts): `gameData.questions.push({question,
answer, isComplete: false, incorrectGuesses: 0, timestamp})` then
rewrite the file.  The saveConfession of part_001 is identical except it
omits the incorrectGuesses field, which checkGuess reads back as 0. -/
def saveConfession (confession username ts : List Char)
    (qs : List ConfessionRecord) : List ConfessionRecord :=
  qs ++ [⟨confession, username, false, 0, ts⟩]

/-- parseConfession (stream.ts): split at `content.lastIndexOf('@')`;
confession is `content.substring(0, atIndex).trimEnd()`, username is
`content.slice(atIndex + 1).trim()`; null when there is no '@' or
either part is falsy (empty). -/
def parseConfession (content : List Char) : Option (List Char × List Char) :=
  match lastIndexOf '@' content with
  | none => none
  | some i =>
    if jsTrimEnd (content.take i) = [] ∨ jsTrim (content.drop (i + 1)) = [] then none
    else some (jsTrimEnd (content.take i), jsTrim (content.drop (i + 1)))

/-- parseConfession from part_001: same split, but the confession part is
`content.substring(0, atIndex)` without trimEnd. -/
def parseConfessionV1 (content : List Char) : Option (List Char × List Char) :=
  match lastIndexOf '@' content with
  | none => none
  | some i =>
    if content.take i = [] ∨ jsTrim (content.drop (i + 1)) = [] then none
    else some (content.take i, jsTrim (content.drop (i + 1)))

/-- hasActiveGame (part_001 and stream.ts, identical): reads game.json
and returns `gameData.questions.some(q => !q.isComplete)`; the catch
around the read/parse returns false.  `none` models an unreadable or
unparsable file. -/
def hasActiveGameRead : Option (List ConfessionRecord) → Bool
  | none => false
  | some qs => qs.any (fun q => !q.isComplete)

/-- Store effect and reply of the /confess handler in part_001
(listenForMessages), on the trimmed remainder `content`:
if hasActiveGame, reject with the wait message; else parse; on null send
the format help; else saveConfession (which re-reads the file and fails
when it is unreadable, making the handler answer saveFailedMsg). -/
def confessHandlerV1 (content : List Char) (file : Option (List ConfessionRecord))
    (ts : List Char) : List Char × Option (List ConfessionRecord) :=
  if hasActiveGameRead file then (waitForGameMsg, file)
  else
    match parseConfessionV1 content with
    | none => (confessFormatMsg, file)
    | some (conf, user) =>
      match file with
      | none => (saveFailedMsg, none)
      | some qs => (confessSavedMsg, some (saveConfession conf user ts qs))

/-- Store effect and reply of the /confess handler in the confession-game
variant of stream.ts, after its group-membership step (which never
touches the game store): empty remainder sends the usage text; a null
parse sends the format help; otherwise the confession is saved. -/
def confessHandlerStream (content : List Char) (qs : List ConfessionRecord)
    (ts : List Char) : List Char × List ConfessionRecord :=
  if content = [] then (confessUsageMsg, qs)
  else
    match parseConfession content with
    | none => (confessFormatMsg, qs)
    | some (conf, user) => (confessSavedMsg, saveConfession conf user ts qs)

/-- The remainder handed to parseConfession by the handler:
`messageContent.slice(8).trim()`, 8 being the length of the /confess
prefix. -/
def confessRemainder (messageContent : List Char) : List Char :=
  jsTrim (messageContent.drop 8)

/-- Modelled from the words of claim C6, for its counterexample only:
the guess equals the
answer up to ASCII case with an optional LEADING '@' on the guess. -/
def claimC6Eq (g a : List Char) : Prop :=
  jsLower g = jsLower a ∨ (g.head? = some '@' ∧ jsLower g.tail = jsLower a)

instance (g a : List Char) : Decidable (claimC6Eq g a) := by
  unfold claimC6Eq; infer_instance

/-- Kind of the conversation a message arrived on. -/
inductive ConvKind
  | dm
  | group
deriving DecidableEq

/-- Abstract action the per-message dispatch of listenForMessages
(confession-game variant of stream.ts) selects for a text message. -/
inductive RouteAction
  | guessCmd (arg : List Char)
  | confessCmd (arg : List Char)
  | shhCmd (arg : List Char)
  | skipGroupMsg
  | membershipSync
deriving DecidableEq

/-- Per-message dispatch order of listenForMessages: the three
`messageContent.startsWith(...)` command blocks run (and `continue`)
BEFORE the `conversation instanceof Group` skip; only the fall-through
membership path is gated on the conversation kind.  The argument of each
command is `messageContent.slice(prefixLength).trim()`. -/
def dispatchMessage (kind : ConvKind) (content : List Char) : RouteAction :=
  if ("/guess".toList).isPrefixOf content then .guessCmd (jsTrim (content.drop 6))
  else if ("/confess".toList).isPrefixOf content then .confessCmd (jsTrim (content.drop 8))
  else if ("/shh".toList).isPrefixOf content then .shhCmd (jsTrim (content.drop 4))
  else
    match kind with
    | .group => .skipGroupMsg
    | .dm => .membershipSync

/-- `const MAX_RETRIES = 6` (stream.ts). -/
def MAX_RETRIES : Nat := 6

/-- `const RETRY_DELAY_MS = 10000` (stream.ts). -/
def RETRY_DELAY_MS : Nat := 10000

/-- Observable outcome of one opening of the message stream: either the
open or the for-await body throws after n messages were delivered, or
the stream ends cleanly after n messages. -/
inductive AttemptOutcome
  | errAfter (n : Nat)
  | cleanEnd (n : Nat)
deriving DecidableEq

/-- True for outcomes where the stream threw. -/
def AttemptOutcome.isStreamErr : AttemptOutcome → Bool
  | .errAfter _ => true
  | .cleanEnd _ => false

/-- Observable trace of the retry loop of listenForMessages:
how many stream opens happened, how many 10 s sleeps, the final
retryCount, whether the while loop exited (vs. still listening when the
script ran out), and whether the exhaustion message was logged. -/
structure SupervisorTrace where
  attempts : Nat
  sleeps : Nat
  retryCount : Nat
  stopped : Bool
  loggedExhaustion : Bool
deriving DecidableEq

/-- The outer retry loop of listenForMessages, run against a script of
stream outcomes.  Faithful to the source: `while (retryCount <
MAX_RETRIES)`; a clean stream completion sets `retryCount = 0`; the
catch does `retryCount++` and sleeps RETRY_DELAY_MS only when the new
count is still below MAX_RETRIES, otherwise logs exhaustion; the whole
body is inside try/catch, so nothing propagates to the caller (the
function is total here).  Message counts inside an outcome do not
influence the loop, exactly as in the source. -/
def runSupervisor : Nat → Nat → Nat → Bool → List AttemptOutcome → SupervisorTrace
  | rc, att, sl, lg, [] =>
    if rc < MAX_RETRIES then ⟨att, sl, rc, false, lg⟩ else ⟨att, sl, rc, true, lg⟩
  | rc, att, sl, lg, o :: rest =>
    if rc < MAX_RETRIES then
      match o with
      | .cleanEnd _ => runSupervisor 0 (att + 1) sl lg rest
      | .errAfter _ =>
        if rc + 1 < MAX_RETRIES then runSupervisor (rc + 1) (att + 1) (sl + 1) lg rest
        else runSupervisor (rc + 1) (att + 1) sl true rest
    else ⟨att, sl, rc, true, lg⟩

/-! ## Helper lemmas -/

theorem checkGuess_nil (g : List Char) :
    checkGuess g [] = (⟨false, none, some noGameFoundMsg⟩, []) := rfl

theorem checkGuess_cons_complete (g : List Char) (q : ConfessionRecord)
    (rest : List ConfessionRecord) (h : q.isComplete = true) :
    checkGuess g (q :: rest) = ((checkGuess g rest).1, q :: (checkGuess g rest).2) := by
  simp [checkGuess, h]

theorem checkGuess_cons_open_right (g : List Char) (q : ConfessionRecord)
    (rest : List ConfessionRecord) (hq : q.isComplete = false)
    (hit : jsLower q.answer = jsLower (removeFirst '@' g)) :
    checkGuess g (q :: rest) =
      (⟨true, some q.question, none⟩, { q with isComplete := true } :: rest) := by
  simp [checkGuess, hq, hit]

theorem checkGuess_cons_open_wrong_cap (g : List Char) (q : ConfessionRecord)
    (rest : List ConfessionRecord) (hq : q.isComplete = false)
    (hmiss : ¬ jsLower q.answer = jsLower (removeFirst '@' g))
    (hcap : q.incorrectGuesses + 1 ≥ 5) :
    checkGuess g (q :: rest) =
      (⟨false, none, some gameOverMsg⟩,
        { q with incorrectGuesses := q.incorrectGuesses + 1, isComplete := true } :: rest) := by
  simp [checkGuess, hq, hmiss, hcap]

theorem checkGuess_cons_open_wrong_low (g : List Char) (q : ConfessionRecord)
    (rest : List ConfessionRecord) (hq : q.isComplete = false)
    (hmiss : ¬ jsLower q.answer = jsLower (removeFirst '@' g))
    (hlow : ¬ q.incorrectGuesses + 1 ≥ 5) :
    checkGuess g (q :: rest) =
      (⟨false, some q.question, none⟩,
        { q with incorrectGuesses := q.incorrectGuesses + 1 } :: rest) := by
  simp [checkGuess, hq, hmiss, hlow]

theorem checkGuess_append_complete (g : List Char) (pre rest : List ConfessionRecord)
    (h : ∀ r ∈ pre, r.isComplete = true) :
    checkGuess g (pre ++ rest) = ((checkGuess g rest).1, pre ++ (checkGuess g rest).2) := by
  induction pre with
  | nil => simp
  | cons p ps ih =>
    have hp : p.isComplete = true := h p (List.mem_cons_self p ps)
    have hps : ∀ r ∈ ps, r.isComplete = true := fun r hr => h r (List.mem_cons_of_mem p hr)
    rw [List.cons_append, checkGuess_cons_complete g p _ hp, ih hps]
    simp

theorem checkGuess_length (g : List Char) (qs : List ConfessionRecord) :
    (checkGuess g qs).2.length = qs.length := by
  induction qs with
  | nil => rfl
  | cons q rest ih =>
    simp only [checkGuess]
    split_ifs <;> simp [ih]

theorem guessN_five_exhausts (g : List Char) (q : ConfessionRecord)
    (hq : q.isComplete = false) (h0 : q.incorrectGuesses = 0)
    (hmiss : ¬ jsLower q.answer = jsLower (removeFirst '@' g)) :
    guessN g 5 [q] = [{ q with incorrectGuesses := 5, isComplete := true }] := by
  obtain ⟨qq, qa, qc, qi, qt⟩ := q
  dsimp only at hq h0 hmiss ⊢
  subst hq; subst h0
  have step : ∀ k : Nat, k + 1 < 5 →
      (checkGuess g [(⟨qq, qa, false, k, qt⟩ : ConfessionRecord)]).2 =
        [⟨qq, qa, false, k + 1, qt⟩] := by
    intro k hk
    rw [checkGuess_cons_open_wrong_low g ⟨qq, qa, false, k, qt⟩ [] rfl hmiss
      (by show ¬ k + 1 ≥ 5; omega)]
  have cap : (checkGuess g [(⟨qq, qa, false, 4, qt⟩ : ConfessionRecord)]).2 =
      [⟨qq, qa, true, 5, qt⟩] := by
    rw [checkGuess_cons_open_wrong_cap g ⟨qq, qa, false, 4, qt⟩ [] rfl hmiss
      (by show 4 + 1 ≥ 5; omega)]
  show guessN g 4 (checkGuess g [(⟨qq, qa, false, 0, qt⟩ : ConfessionRecord)]).2 = _
  rw [step 0 (by omega)]
  show guessN g 3 (checkGuess g [(⟨qq, qa, false, 1, qt⟩ : ConfessionRecord)]).2 = _
  rw [step 1 (by omega)]
  show guessN g 2 (checkGuess g [(⟨qq, qa, false, 2, qt⟩ : ConfessionRecord)]).2 = _
  rw [step 2 (by omega)]
  show guessN g 1 (checkGuess g [(⟨qq, qa, false, 3, qt⟩ : ConfessionRecord)]).2 = _
  rw [step 3 (by omega)]
  show guessN g 0 (checkGuess g [(⟨qq, qa, false, 4, qt⟩ : ConfessionRecord)]).2 = _
  rw [cap]
  rfl

/-! ## Claim theorems -/

/-- C1: checkGuess (recordGuess) acts on the oldest record with
isComplete = false.  When every record is complete it returns the
"No game found" error result and leaves the store unchanged.  When the
store splits as pre ++ q :: post with every record of pre complete and q
open, the reported correctness is exactly the comparison of the guess
(lowercased, first '@' removed) against the answer of q, and only q is
replaced: the records before and after it are returned untouched. -/
theorem checkGuess_oldest_open (g : List Char) (qs pre post : List ConfessionRecord)
    (q : ConfessionRecord) :
    ((∀ r ∈ qs, r.isComplete = true) →
        checkGuess g qs = (⟨false, none, some noGameFoundMsg⟩, qs)) ∧
    ((∀ r ∈ pre, r.isComplete = true) → q.isComplete = false →
        ((checkGuess g (pre ++ q :: post)).1.correct = true ↔
            jsLower q.answer = jsLower (removeFirst '@' g)) ∧
        ∃ q2, (checkGuess g (pre ++ q :: post)).2 = pre ++ q2 :: post) := by
  constructor
  · intro h
    have e := checkGuess_append_complete g qs [] h
    simpa [checkGuess] using e
  · intro hpre hq
    rw [checkGuess_append_complete g pre (q :: post) hpre]
    by_cases hit : jsLower q.answer = jsLower (removeFirst '@' g)
    · rw [checkGuess_cons_open_right g q post hq hit]
      exact ⟨by simpa using hit, { q with isComplete := true }, rfl⟩
    · by_cases hcap : q.incorrectGuesses + 1 ≥ 5
      · rw [checkGuess_cons_open_wrong_cap g q post hq hit hcap]
        exact ⟨by simpa using hit,
          { q with incorrectGuesses := q.incorrectGuesses + 1, isComplete := true }, rfl⟩
      · rw [checkGuess_cons_open_wrong_low g q post hq hit hcap]
        exact ⟨by simpa using hit,
          { q with incorrectGuesses := q.incorrectGuesses + 1 }, rfl⟩

theorem checkGuess_oldest_open_witness :
    ((checkGuess "alice".toList
        [(⟨"c".toList, "alice".toList, false, 0, []⟩ : ConfessionRecord)]).1.correct = true ↔
      jsLower "alice".toList = jsLower (removeFirst '@' "alice".toList)) ∧
    ∃ q2, (checkGuess "alice".toList
        [(⟨"c".toList, "alice".toList, false, 0, []⟩ : ConfessionRecord)]).2 = [] ++ q2 :: [] :=
  (checkGuess_oldest_open "alice".toList [] [] []
    ⟨"c".toList, "alice".toList, false, 0, []⟩).2 (by simp) rfl

/-- C2: a mismatching guess against the oldest open record increments
the incorrectGuesses of that record by 1.  If the new count reaches 5 the
record is also marked complete and the result is correct = false with
the terminal game-over error; below 5 the incremented record is
persisted and the result is correct = false with the confession text.
Consequently a fresh record is complete after exactly 5 wrong guesses
and a 6th wrong guess reports "No game found" without re-incrementing. -/
theorem checkGuess_mismatch_increments (g : List Char) (pre post : List ConfessionRecord)
    (q : ConfessionRecord) (hpre : ∀ r ∈ pre, r.isComplete = true)
    (hq : q.isComplete = false)
    (hmiss : ¬ jsLower q.answer = jsLower (removeFirst '@' g)) :
    (q.incorrectGuesses + 1 ≥ 5 →
        checkGuess g (pre ++ q :: post) =
          (⟨false, none, some gameOverMsg⟩,
            pre ++ { q with incorrectGuesses := q.incorrectGuesses + 1,
                            isComplete := true } :: post)) ∧
    (q.incorrectGuesses + 1 < 5 →
        checkGuess g (pre ++ q :: post) =
          (⟨false, some q.question, none⟩,
            pre ++ { q with incorrectGuesses := q.incorrectGuesses + 1 } :: post)) ∧
    (q.incorrectGuesses = 0 →
        guessN g 5 [q] = [{ q with incorrectGuesses := 5, isComplete := true }] ∧
        checkGuess g (guessN g 5 [q]) =
          (⟨false, none, some noGameFoundMsg⟩, guessN g 5 [q])) := by
  refine ⟨?_, ?_, ?_⟩
  · intro hcap
    rw [checkGuess_append_complete g pre (q :: post) hpre,
      checkGuess_cons_open_wrong_cap g q post hq hmiss hcap]
  · intro hlow
    rw [checkGuess_append_complete g pre (q :: post) hpre,
      checkGuess_cons_open_wrong_low g q post hq hmiss (by omega)]
  · intro h0
    have hfive := guessN_five_exhausts g q hq h0 hmiss
    refine ⟨hfive, ?_⟩
    rw [hfive, checkGuess_cons_complete g _ [] rfl]
    rfl

theorem checkGuess_mismatch_increments_witness :
    checkGuess "bob".toList
        [(⟨"c".toList, "alice".toList, false, 0, []⟩ : ConfessionRecord)] =
      (⟨false, some "c".toList, none⟩, [⟨"c".toList, "alice".toList, false, 1, []⟩]) :=
  (checkGuess_mismatch_increments "bob".toList [] []
    ⟨"c".toList, "alice".toList, false, 0, []⟩ (by simp) rfl (by decide)).2.1 (by decide)

/-- C6 counterexample: the claimed comparison ("guess equals answer up
to ASCII case and an optional LEADING '@' on the guess") does not
describe the code.  The JS replace with a plain string pattern used on
the guess deletes the first '@'
ANYWHERE in the guess, so against the open answer "alice" the guess
"al@ice" is reported correct, although it is neither "alice" nor
"@alice" up to case. -/
theorem checkGuess_first_at_counterexample :
    (checkGuess "al@ice".toList
        [(⟨"c".toList, "alice".toList, false, 0, []⟩ : ConfessionRecord)]).1.correct = true ∧
    ¬ claimC6Eq "al@ice".toList "alice".toList := by
  decide

/-- C6 (amended): against the oldest open record, checkGuess reports
correct = true iff the guess, after deleting its first '@' occurrence
(anywhere, not only leading), equals the answer of the record up to ASCII
case.  In particular "alice" and "@alice" (and case variants) are still
both treated as matching the answer "alice". -/
theorem checkGuess_correct_iff (g : List Char) (pre post : List ConfessionRecord)
    (q : ConfessionRecord) (hpre : ∀ r ∈ pre, r.isComplete = true)
    (hq : q.isComplete = false) :
    (checkGuess g (pre ++ q :: post)).1.correct = true ↔
      jsLower (removeFirst '@' g) = jsLower q.answer := by
  rw [checkGuess_append_complete g pre (q :: post) hpre]
  by_cases hit : jsLower q.answer = jsLower (removeFirst '@' g)
  · rw [checkGuess_cons_open_right g q post hq hit]
    simpa using hit.symm
  · by_cases hcap : q.incorrectGuesses + 1 ≥ 5
    · rw [checkGuess_cons_open_wrong_cap g q post hq hit hcap]
      simpa using fun e => hit e.symm
    · rw [checkGuess_cons_open_wrong_low g q post hq hit hcap]
      simpa using fun e => hit e.symm

theorem checkGuess_correct_iff_witness :
    ((checkGuess "@ALICE".toList
        [(⟨"c".toList, "alice".toList, false, 0, []⟩ : ConfessionRecord)]).1.correct = true ↔
      jsLower (removeFirst '@' "@ALICE".toList) = jsLower "alice".toList) :=
  checkGuess_correct_iff "@ALICE".toList [] []
    ⟨"c".toList, "alice".toList, false, 0, []⟩ (by simp) rfl

theorem checkGuess_getElem?_complete (g : List Char) (qs : List ConfessionRecord)
    (i : Nat) (q : ConfessionRecord) (hi : qs[i]? = some q) (hc : q.isComplete = true) :
    (checkGuess g qs).2[i]? = some q := by
  induction qs generalizing i with
  | nil => simp at hi
  | cons p rest ih =>
    by_cases hp : p.isComplete
    · cases i with
      | zero =>
        simp only [List.getElem?_cons_zero, Option.some.injEq] at hi
        rw [checkGuess_cons_complete g p rest hp]
        simp [hi]
      | succ n =>
        simp only [List.getElem?_cons_succ] at hi
        rw [checkGuess_cons_complete g p rest hp]
        simpa using ih n hi
    · cases i with
      | zero =>
        simp only [List.getElem?_cons_zero, Option.some.injEq] at hi
        rw [← hi] at hc
        exact absurd hc hp
      | succ n =>
        simp only [List.getElem?_cons_succ] at hi
        have hp2 : p.isComplete = false := by simpa using hp
        by_cases hit : jsLower p.answer = jsLower (removeFirst '@' g)
        · rw [checkGuess_cons_open_right g p rest hp2 hit]
          simpa using hi
        · by_cases hcap : p.incorrectGuesses + 1 ≥ 5
          · rw [checkGuess_cons_open_wrong_cap g p rest hp2 hit hcap]
            simpa using hi
          · rw [checkGuess_cons_open_wrong_low g p rest hp2 hit hcap]
            simpa using hi

/-- C7: a record that is already complete is never mutated by any later
checkGuess (the record at its index is unchanged, all fields included),
checkGuess never changes the number of records, and saveConfession only
appends — so no operation deletes a record. -/
theorem complete_record_immutable (g conf user ts : List Char)
    (qs : List ConfessionRecord) (i : Nat) (q : ConfessionRecord)
    (hi : qs[i]? = some q) (hc : q.isComplete = true) :
    (checkGuess g qs).2[i]? = some q ∧
    (checkGuess g qs).2.length = qs.length ∧
    (saveConfession conf user ts qs)[i]? = some q := by
  refine ⟨checkGuess_getElem?_complete g qs i q hi hc, checkGuess_length g qs, ?_⟩
  have hlt : i < qs.length := by
    by_contra hge
    rw [List.getElem?_eq_none (by omega)] at hi
    exact Option.noConfusion hi
  simp only [saveConfession]
  rw [List.getElem?_append, if_pos hlt]
  exact hi

theorem complete_record_immutable_witness :
    (checkGuess "x".toList
        [(⟨"c".toList, "alice".toList, true, 2, []⟩ : ConfessionRecord)]).2[0]? =
      some ⟨"c".toList, "alice".toList, true, 2, []⟩ ∧
    (checkGuess "x".toList
        [(⟨"c".toList, "alice".toList, true, 2, []⟩ : ConfessionRecord)]).2.length =
      [(⟨"c".toList, "alice".toList, true, 2, []⟩ : ConfessionRecord)].length ∧
    (saveConfession "d".toList "bob".toList []
        [(⟨"c".toList, "alice".toList, true, 2, []⟩ : ConfessionRecord)])[0]? =
      some ⟨"c".toList, "alice".toList, true, 2, []⟩ :=
  complete_record_immutable "x".toList "d".toList "bob".toList []
    [⟨"c".toList, "alice".toList, true, 2, []⟩] 0
    ⟨"c".toList, "alice".toList, true, 2, []⟩ rfl rfl

/-! ## Parsing lemmas -/

theorem dropWhile_eq_cons_head_false {p : Char → Bool} {l : List Char} {c : Char}
    {t : List Char} (h : l.dropWhile p = c :: t) : p c = false := by
  have e := List.head?_dropWhile_not p l
  rw [h] at e
  simpa using e

theorem dropWhile_suffix_decomp (p : Char → Bool) (s : List Char) :
    ∃ m, s = m ++ s.dropWhile p := by
  induction s with
  | nil => exact ⟨[], rfl⟩
  | cons x xs ih =>
    by_cases hx : p x
    · obtain ⟨m, hm⟩ := ih
      refine ⟨x :: m, ?_⟩
      rw [List.dropWhile_cons_of_pos hx, List.cons_append, ← hm]
    · exact ⟨[], by rw [List.dropWhile_cons_of_neg hx]; rfl⟩

theorem jsTrimEnd_prefix_decomp (l : List Char) : ∃ r, l = jsTrimEnd l ++ r := by
  obtain ⟨m, hm⟩ := dropWhile_suffix_decomp Char.isWhitespace l.reverse
  refine ⟨m.reverse, ?_⟩
  have e := congrArg List.reverse hm
  simpa [jsTrimEnd] using e

theorem jsTrim_head_not_ws {s : List Char} {c : Char} {t : List Char}
    (h : jsTrim s = c :: t) : c.isWhitespace = false := by
  unfold jsTrim at h
  obtain ⟨r, hr⟩ := jsTrimEnd_prefix_decomp (jsTrimStart s)
  rw [h] at hr
  exact dropWhile_eq_cons_head_false (p := Char.isWhitespace) (l := s)
    (show s.dropWhile Char.isWhitespace = c :: (t ++ r) by
      rw [show s.dropWhile Char.isWhitespace = jsTrimStart s from rfl, hr, List.cons_append])

theorem jsTrimEnd_eq_jsTrim_of_prefix {s a rest : List Char}
    (h : jsTrim s = a ++ rest) : jsTrimEnd a = jsTrim a := by
  cases a with
  | nil => rfl
  | cons c a2 =>
    have hc : c.isWhitespace = false := jsTrim_head_not_ws (by simpa using h)
    unfold jsTrim jsTrimStart
    rw [List.dropWhile_cons_of_neg (by simp [hc])]

theorem lastIndexOf_eq_none_of_not_mem {c : Char} {l : List Char} (h : c ∉ l) :
    lastIndexOf c l = none := by
  induction l with
  | nil => rfl
  | cons x xs ih =>
    simp only [List.mem_cons, not_or] at h
    rw [show lastIndexOf c (x :: xs) =
        (match lastIndexOf c xs with
         | some i => some (i + 1)
         | none => if x = c then some 0 else none) from rfl,
      ih h.2]
    exact if_neg fun e => h.1 e.symm

theorem lastIndexOf_append_cons {c : Char} (a : List Char) {b : List Char} (hb : c ∉ b) :
    lastIndexOf c (a ++ c :: b) = some a.length := by
  induction a with
  | nil =>
    show lastIndexOf c (c :: b) = some 0
    rw [show lastIndexOf c (c :: b) =
        (match lastIndexOf c b with
         | some i => some (i + 1)
         | none => if c = c then some 0 else none) from rfl,
      lastIndexOf_eq_none_of_not_mem hb]
    simp
  | cons x a2 ih =>
    show lastIndexOf c (x :: (a2 ++ c :: b)) = some (a2.length + 1)
    rw [show lastIndexOf c (x :: (a2 ++ c :: b)) =
        (match lastIndexOf c (a2 ++ c :: b) with
         | some i => some (i + 1)
         | none => if x = c then some 0 else none) from rfl,
      ih]

/-- C5: parsing the remainder of a /confess message (the text after the
command word, trimmed) splits on the LAST '@': the part before it,
trimmed, is the confession, the part after it, trimmed, is the claimed
identity; with no '@', or when either trimmed part is empty, the parse
is null, the handler answers the format-help (or, for an empty
remainder, the usage) message and the store is unchanged; and
"/confess I like pancakes @nick" parses to ("I like pancakes", "nick"). -/
theorem parseConfession_splits_last_at (m a b ts : List Char)
    (qs : List ConfessionRecord) :
    (confessRemainder m = a ++ '@' :: b → '@' ∉ b →
        parseConfession (confessRemainder m) =
          if jsTrim a = [] ∨ jsTrim b = [] then none
          else some (jsTrim a, jsTrim b)) ∧
    ('@' ∉ confessRemainder m → parseConfession (confessRemainder m) = none) ∧
    (parseConfession (confessRemainder m) = none → confessRemainder m ≠ [] →
        confessHandlerStream (confessRemainder m) qs ts = (confessFormatMsg, qs)) ∧
    (confessRemainder m = [] →
        confessHandlerStream (confessRemainder m) qs ts = (confessUsageMsg, qs)) ∧
    parseConfession (confessRemainder "/confess I like pancakes @nick".toList) =
      some ("I like pancakes".toList, "nick".toList) := by
  refine ⟨?_, ?_, ?_, ?_, by decide⟩
  · intro hsplit hb
    have htrim : jsTrimEnd a = jsTrim a :=
      jsTrimEnd_eq_jsTrim_of_prefix (s := m.drop 8) hsplit
    have htake : (a ++ '@' :: b).take a.length = a := List.take_left a ('@' :: b)
    have hdrop : (a ++ '@' :: b).drop (a.length + 1) = b := by
      rw [show a ++ '@' :: b = (a ++ ['@']) ++ b by simp, List.drop_left' (by simp)]
    rw [hsplit]
    simp only [parseConfession, lastIndexOf_append_cons a hb, htake, hdrop, htrim]
  · intro hnot
    simp only [parseConfession, lastIndexOf_eq_none_of_not_mem hnot]
  · intro hparse hne
    simp only [confessHandlerStream, if_neg hne, hparse]
  · intro h
    rw [h]
    rfl

theorem parseConfession_splits_last_at_witness :
    parseConfession (confessRemainder "/confess I like pancakes @nick".toList) =
      if jsTrim "I like pancakes ".toList = [] ∨ jsTrim "nick".toList = [] then none
      else some (jsTrim "I like pancakes ".toList, jsTrim "nick".toList) :=
  (parseConfession_splits_last_at "/confess I like pancakes @nick".toList
    "I like pancakes ".toList "nick".toList [] []).1 (by decide) (by decide)

/-- C3: a /confess processed while some stored record still has
isComplete = false (hasOpenRound) is rejected with the wait message and
the store is returned exactly as it was: nothing is appended and no
record is changed. -/
theorem confess_rejected_while_open (content ts : List Char)
    (qs : List ConfessionRecord) (h : ∃ q ∈ qs, q.isComplete = false) :
    confessHandlerV1 content (some qs) ts = (waitForGameMsg, some qs) := by
  have hb : hasActiveGameRead (some qs) = true := by
    simp only [hasActiveGameRead, List.any_eq_true]
    obtain ⟨q, hq, hqc⟩ := h
    exact ⟨q, hq, by simp [hqc]⟩
  simp [confessHandlerV1, hb]

theorem confess_rejected_while_open_witness :
    confessHandlerV1 "hi @bob".toList
        (some [(⟨"c".toList, "alice".toList, false, 0, []⟩ : ConfessionRecord)]) [] =
      (waitForGameMsg, some [⟨"c".toList, "alice".toList, false, 0, []⟩]) :=
  confess_rejected_while_open "hi @bob".toList []
    [⟨"c".toList, "alice".toList, false, 0, []⟩]
    ⟨⟨"c".toList, "alice".toList, false, 0, []⟩, by simp, rfl⟩

/-- C9: the three slash-command blocks run before the Group-instance
skip, so a command from a group conversation is dispatched exactly like
one from a DM; only a non-command message is split by conversation
kind, with the membership path reserved for DMs. -/
theorem commands_before_group_check (content : List Char) :
    ((("/guess".toList).isPrefixOf content = true ∨
      ("/confess".toList).isPrefixOf content = true ∨
      ("/shh".toList).isPrefixOf content = true) →
        dispatchMessage ConvKind.group content = dispatchMessage ConvKind.dm content) ∧
    (¬(("/guess".toList).isPrefixOf content = true ∨
       ("/confess".toList).isPrefixOf content = true ∨
       ("/shh".toList).isPrefixOf content = true) →
        dispatchMessage ConvKind.group content = RouteAction.skipGroupMsg ∧
        dispatchMessage ConvKind.dm content = RouteAction.membershipSync) := by
  constructor
  · intro h
    unfold dispatchMessage
    split_ifs with h1 h2 h3
    · rfl
    · rfl
    · rfl
    · rcases h with h | h | h
      · exact absurd h h1
      · exact absurd h h2
      · exact absurd h h3
  · intro h
    push_neg at h
    obtain ⟨h1, h2, h3⟩ := h
    constructor
    · unfold dispatchMessage
      rw [if_neg h1, if_neg h2, if_neg h3]
    · unfold dispatchMessage
      rw [if_neg h1, if_neg h2, if_neg h3]

theorem commands_before_group_check_witness :
    dispatchMessage ConvKind.group "/guess alice".toList =
      dispatchMessage ConvKind.dm "/guess alice".toList ∧
    dispatchMessage ConvKind.group "hello".toList = RouteAction.skipGroupMsg ∧
    dispatchMessage ConvKind.dm "hello".toList = RouteAction.membershipSync :=
  ⟨(commands_before_group_check "/guess alice".toList).1 (Or.inl (by decide)),
   (commands_before_group_check "hello".toList).2 (by decide)⟩

/-- C4 counterexample: after one stream-open failure, a successful open
whose stream delivers a message and later throws is NOT retried with a
fresh attempt count.  The code resets retryCount only when the for-await
loop completes cleanly, so the later stream error is counted on top of
the earlier failure: retryCount becomes 2, not 1. -/
theorem retry_not_reset_on_messages :
    (runSupervisor 0 0 0 false
        [AttemptOutcome.errAfter 0, AttemptOutcome.errAfter 1]).retryCount = 2 ∧
    ¬ (runSupervisor 0 0 0 false
        [AttemptOutcome.errAfter 0, AttemptOutcome.errAfter 1]).retryCount = 1 := by
  decide

/-- C4 (amended): the attempt counter resets to 0 only when the stream
completes cleanly (the message sequence ends without throwing).  A
stream that successfully opened and delivered m ≥ 1 messages before
throwing increments the previous attempt count (to 2 after one earlier
failure), while an intervening clean completion makes a later error
count as attempt 1 again. -/
theorem retry_reset_on_clean_completion (m : Nat) (hm : 1 ≤ m) :
    (runSupervisor 0 0 0 false
        [AttemptOutcome.errAfter 0, AttemptOutcome.errAfter m]).retryCount = 2 ∧
    (runSupervisor 0 0 0 false
        [AttemptOutcome.errAfter 0, AttemptOutcome.cleanEnd m,
          AttemptOutcome.errAfter 0]).retryCount = 1 :=
  ⟨rfl, rfl⟩

theorem retry_reset_on_clean_completion_witness :
    (runSupervisor 0 0 0 false
        [AttemptOutcome.errAfter 0, AttemptOutcome.errAfter 1]).retryCount = 2 ∧
    (runSupervisor 0 0 0 false
        [AttemptOutcome.errAfter 0, AttemptOutcome.cleanEnd 1,
          AttemptOutcome.errAfter 0]).retryCount = 1 :=
  retry_reset_on_clean_completion 1 (by decide)

/-- C8: when all six attempts to open or consume the stream throw, the
supervisor makes exactly MAX_RETRIES = 6 attempts, sleeps the fixed
RETRY_DELAY_MS = 10000 ms delay 5 times (between consecutive attempts,
not after the last), then the while loop terminates, the exhaustion
message is logged, and no exception escapes (runSupervisor is total and
returns a trace). -/
theorem retries_exhausted (script : List AttemptOutcome)
    (hlen : script.length = 6)
    (herr : ∀ o ∈ script, o.isStreamErr = true) :
    runSupervisor 0 0 0 false script =
      ⟨6, 5, 6, true, true⟩ ∧ MAX_RETRIES = 6 ∧ RETRY_DELAY_MS = 10000 := by
  refine ⟨?_, rfl, rfl⟩
  match script, hlen, herr with
  | [o1, o2, o3, o4, o5, o6], _, herr =>
    have e1 := herr o1 (by simp)
    have e2 := herr o2 (by simp)
    have e3 := herr o3 (by simp)
    have e4 := herr o4 (by simp)
    have e5 := herr o5 (by simp)
    have e6 := herr o6 (by simp)
    cases o1 with
    | cleanEnd n => simp [AttemptOutcome.isStreamErr] at e1
    | errAfter n1 =>
    cases o2 with
    | cleanEnd n => simp [AttemptOutcome.isStreamErr] at e2
    | errAfter n2 =>
    cases o3 with
    | cleanEnd n => simp [AttemptOutcome.isStreamErr] at e3
    | errAfter n3 =>
    cases o4 with
    | cleanEnd n => simp [AttemptOutcome.isStreamErr] at e4
    | errAfter n4 =>
    cases o5 with
    | cleanEnd n => simp [AttemptOutcome.isStreamErr] at e5
    | errAfter n5 =>
    cases o6 with
    | cleanEnd n => simp [AttemptOutcome.isStreamErr] at e6
    | errAfter n6 => rfl

theorem retries_exhausted_witness :
    runSupervisor 0 0 0 false (List.replicate 6 (AttemptOutcome.errAfter 0)) =
      ⟨6, 5, 6, true, true⟩ ∧ MAX_RETRIES = 6 ∧ RETRY_DELAY_MS = 10000 :=
  retries_exhausted (List.replicate 6 (AttemptOutcome.errAfter 0)) (by simp)
    (fun o ho => by rw [List.eq_of_mem_replicate ho]; rfl)

/-- C10: hasActiveGame answers false when the game file cannot be read
or parsed (the catch around the read), so a /confess on a persistence
read failure is never rejected with the wait message: it proceeds as if
no round were open (and, for a parseable confession, fails later at the
save step instead of reporting a persistence error for the check). -/
theorem read_failure_treated_as_no_round (content ts : List Char) :
    hasActiveGameRead none = false ∧
    (confessHandlerV1 content none ts).1 ≠ waitForGameMsg := by
  refine ⟨rfl, ?_⟩
  unfold confessHandlerV1
  rw [show hasActiveGameRead none = false from rfl]
  simp only [Bool.false_eq_true, if_false]
  cases hp : parseConfessionV1 content with
  | none => decide
  | some pr =>
    obtain ⟨conf, user⟩ := pr
    show saveFailedMsg ≠ waitForGameMsg
    decide

end ConfessBot
